import Mathlib

/-!
Verification of the Refreshable Braille Character host controller.

Shallow embedding of the core components of the repository:
* `braille_patterns.py` — pattern codec (character → 6-bit pattern → servo angles),
* `serial_manager.py` — transport send path,
* `controller_gui.py` — telemetry parsing, pulse→angle conversion and the
  group-sequenced transmission pipeline.

Python strings are embedded as `List Char`; dictionaries as association lists;
exceptions as `Option`/`Except`.  Helper functions mirror the Python string
primitives used by the source (`in`, `split`, `strip`, `zfill`, `str.index`,
and the two regular expressions of `process_serial_message`).
-/

namespace Braille

/-- Python `c.isspace()`-style whitespace, as used by `str.strip` / regex `\s`
(ASCII range, which is what the wire protocol carries). -/
def pyIsSpace (c : Char) : Bool :=
  c == ' ' || c == '\t' || c == '\n' || c == '\r' || c == '\x0b' || c == '\x0c'

/-- Python `sub in s`: substring containment. -/
def containsSubstr (s pat : List Char) : Bool :=
  s.tails.any (fun t => pat.isPrefixOf t)

/-- Python `s.strip()`: drop whitespace from both ends. -/
def pyStrip (s : List Char) : List Char :=
  ((s.dropWhile pyIsSpace).reverse.dropWhile pyIsSpace).reverse

/-- Python `s.split("->")`, accumulator-passing scan (leftmost, non-overlapping). -/
def splitArrowGo : List Char → List Char → List (List Char)
  | '-' :: '>' :: rest, acc => acc.reverse :: splitArrowGo rest []
  | c :: rest, acc => splitArrowGo rest (c :: acc)
  | [], acc => [acc.reverse]

/-- Python `s.split("->")`. -/
def splitArrow (s : List Char) : List (List Char) := splitArrowGo s []

/-- Python `s.split(":")`, accumulator-passing scan. -/
def splitColonGo : List Char → List Char → List (List Char)
  | ':' :: rest, acc => acc.reverse :: splitColonGo rest []
  | c :: rest, acc => splitColonGo rest (c :: acc)
  | [], acc => [acc.reverse]

/-- Python `s.split(":")`. -/
def splitColon (s : List Char) : List (List Char) := splitColonGo s []

/-- Python `s.index(sub)` / `s.find(sub)`: lowest index at which `pat` occurs
as a substring of `s` (`none` models the `ValueError` of `index`). -/
def substrIndex (s pat : List Char) : Option Nat :=
  (List.range (s.length + 1)).find? (fun i => pat.isPrefixOf (s.drop i))

/-- Python `s.zfill(6)` for digit strings: left-pad with `'0'` to length 6. -/
def zfill6 (s : List Char) : List Char :=
  List.replicate (6 - s.length) '0' ++ s

/-- Python `int(s)` for a string of decimal digits. -/
def digitsToNat (s : List Char) : Nat :=
  s.foldl (fun n c => 10 * n + (c.toNat - 48)) 0

/-! ## Pattern codec (`visualization/braille_patterns.py`) -/

/-- `BRAILLE_PATTERNS`: braille patterns for lowercase letters a–z. -/
def BRAILLE_PATTERNS : List (Char × List Char) := [
  ('a', "100000".toList), ('b', "101000".toList), ('c', "110000".toList),
  ('d', "110100".toList), ('e', "100100".toList),
  ('f', "111000".toList), ('g', "111100".toList), ('h', "101100".toList),
  ('i', "011000".toList), ('j', "011100".toList),
  ('k', "100010".toList), ('l', "101010".toList), ('m', "110010".toList),
  ('n', "110110".toList), ('o', "100110".toList),
  ('p', "111010".toList), ('q', "111110".toList), ('r', "101110".toList),
  ('s', "011010".toList), ('t', "011110".toList),
  ('u', "100011".toList), ('v', "101011".toList), ('w', "011101".toList),
  ('x', "110011".toList), ('y', "110111".toList),
  ('z', "100111".toList)]

/-- `BRAILLE_NUMBERS`: braille patterns for digits 0–9. -/
def BRAILLE_NUMBERS : List (Char × List Char) := [
  ('0', "010110".toList), ('1', "100000".toList), ('2', "101000".toList),
  ('3', "110000".toList), ('4', "110100".toList),
  ('5', "100100".toList), ('6', "111000".toList), ('7', "111100".toList),
  ('8', "101100".toList), ('9', "011000".toList)]

/-- `BRAILLE_SPECIAL`: space and punctuation patterns. -/
def BRAILLE_SPECIAL : List (Char × List Char) := [
  (' ', "000000".toList), ('.', "010011".toList), (',', "010000".toList),
  ('?', "011001".toList), ('!', "011010".toList)]

/-- `get_pattern_for_char`: lowercase fold, then letters, digits, punctuation,
else the space pattern `BRAILLE_SPECIAL[' '] = "000000"`. -/
def get_pattern_for_char (c : Char) : List Char :=
  match BRAILLE_PATTERNS.lookup c.toLower with
  | some p => p
  | none =>
    match BRAILLE_NUMBERS.lookup c.toLower with
    | some p => p
    | none =>
      match BRAILLE_SPECIAL.lookup c.toLower with
      | some p => p
      | none => "000000".toList

/-- `PATTERN_TO_ANGLE`: the hand-calibrated 3-bit-index → angle table. -/
def PATTERN_TO_ANGLE : List Nat := [66, 84, 37, 128, 51, 26, 22, 0]

/-- Python `int(pattern, 2)` on a binary-digit string. -/
def parseBin (s : List Char) : Nat :=
  s.foldl (fun n c => 2 * n + (if c == '1' then 1 else 0)) 0

/-- `pattern_to_angles`: split the 6-bit value into its high and low 3-bit
halves and look each up in `PATTERN_TO_ANGLE`. -/
def pattern_to_angles (p : List Char) : Nat × Nat :=
  (PATTERN_TO_ANGLE.getD ((parseBin p >>> 3) &&& 7) 0,
   PATTERN_TO_ANGLE.getD (parseBin p &&& 7) 0)

/-- `validate_pattern`: non-empty, length exactly 6, every char `'0'`/`'1'`. -/
def validate_pattern (p : List Char) : Bool :=
  !p.isEmpty && p.length == 6 && p.all (fun c => c == '0' || c == '1')

/-! ## Chunking (`controller_gui.py`, `_send_text`):
`[text[i:i+g] for i in range(0, len(text), g)]`, embedded with an explicit
fuel argument (`fuel = text.length` always suffices since `g ≥ 1`). -/

/-- One chunking step per unit of fuel: take `g`, recurse on the rest. -/
def chunkFuel (g : Nat) : Nat → List Char → List (List Char)
  | _, [] => []
  | 0, _ :: _ => []
  | fuel + 1, x :: xs => (x :: xs).take g :: chunkFuel g fuel ((x :: xs).drop g)

/-- `text[i:i+g] for i in range(0, len(text), g)`: consecutive slices of size `g`. -/
def chunk (g : Nat) (l : List Char) : List (List Char) :=
  chunkFuel g l.length l

/-! ## Pulse/angle converter (`controller_gui.py`, `_pulse_to_angle`) -/

/-- Python `round(x, 1)` on the exact rational value: round to the nearest
tenth (Mathlib `round`, ties upward; the claimed properties do not depend on
the tie-breaking direction). -/
def roundTo1 (x : ℚ) : ℚ := ((round (x * 10) : ℤ) : ℚ) / 10

/-- `_pulse_to_angle`: clamp to `[500, 2500]`, linear map to `[0, 180]`,
round to one decimal place. -/
def pulse_to_angle (pulse_width : ℤ) : ℚ :=
  roundTo1 ((((max 500 (min pulse_width 2500) : ℤ) : ℚ) - 500) * (180 - 0) / (2500 - 500))

/-! ## Transport send path (`communication/serial_manager.py`, `send_text`) -/

/-- One operation performed on the underlying serial handle. -/
inductive PortOp where
  | resetInputBuffer : PortOp
  | resetOutputBuffer : PortOp
  | write : List Char → PortOp
  | flush : PortOp
deriving DecidableEq, Repr

/-- Errors raised by `SerialManager.send_text`. -/
inductive SendError where
  | notConnected : SendError
  | emptyText : SendError
deriving DecidableEq, Repr

/-- The wire command built by `send_text`: `f"TEXT:{text}\n"`. -/
def textCommand (text : List Char) : List Char :=
  "TEXT:".toList ++ text ++ ['\n']

/-- `SerialManager.send_text`: `ConnectionError` when not connected,
`ValueError` on blank text, otherwise clear both buffers, write the encoded
command and flush.  The result lists the port operations in order. -/
def send_text (isConnected : Bool) (text : List Char) :
    Except SendError (List PortOp) :=
  if !isConnected then .error .notConnected
  else if (pyStrip text).isEmpty then .error .emptyText
  else .ok [.resetInputBuffer, .resetOutputBuffer, .write (textCommand text), .flush]

/-! ## Telemetry parser (`controller_gui.py`, `process_serial_message`,
lines 312–351: recognition, character token, pattern regex, servo regex). -/

/-- The substring `"Character:"`. -/
def characterTag : List Char := "Character:".toList

/-- The substring `"Pattern:"`. -/
def patternTag : List Char := "Pattern:".toList

/-- Regex `Pattern:\s*([01]+)` attempted at the start of `s` (whitespace and
binary digits are disjoint, so greedy matching needs no backtracking). -/
def tryPatternAt (s : List Char) : Option (List Char) :=
  if patternTag.isPrefixOf s then
    match (s.drop patternTag.length).dropWhile pyIsSpace with
    | r =>
      match r.takeWhile (fun c => c == '0' || c == '1') with
      | [] => none
      | bits => some bits
  else none

/-- `re.search(r'Pattern:\s*([01]+)', s)`: first position, left to right,
where the pattern regex matches; returns the captured digit group. -/
def searchPattern : List Char → Option (List Char)
  | [] => none
  | c :: rest =>
    match tryPatternAt (c :: rest) with
    | some bits => some bits
    | none => searchPattern rest

/-- Regex `Servo ([AB]) \((?:\d+)\): (\d+)µs` attempted at the start of `s`:
returns the servo letter, the captured pulse digits and the matched length
(each `\d+` is followed by a non-digit, so greedy matching is exact). -/
def tryServoAt (s : List Char) : Option (Char × List Char × Nat) :=
  if "Servo ".toList.isPrefixOf s then
    match s.drop 6 with
    | [] => none
    | l :: r1 =>
      if l == 'A' || l == 'B' then
        if " (".toList.isPrefixOf r1 then
          match (r1.drop 2).takeWhile Char.isDigit with
          | [] => none
          | d1 =>
            if "): ".toList.isPrefixOf ((r1.drop 2).drop d1.length) then
              match (((r1.drop 2).drop d1.length).drop 3).takeWhile Char.isDigit with
              | [] => none
              | d2 =>
                if "µs".toList.isPrefixOf
                    ((((r1.drop 2).drop d1.length).drop 3).drop d2.length) then
                  some (l, d2, 6 + 1 + 2 + d1.length + 3 + d2.length + 2)
                else none
            else none
        else none
      else none
  else none

/-- `re.findall` scan: leftmost, non-overlapping; after a match resume just
past its end, otherwise advance one character.  Fuel = remaining length
(each step consumes at least one character, so `s.length` fuel suffices). -/
def findServoFuel : Nat → List Char → List (Char × List Char)
  | _, [] => []
  | 0, _ :: _ => []
  | fuel + 1, c :: rest =>
    match tryServoAt (c :: rest) with
    | some (l, d, consumed) => (l, d) :: findServoFuel fuel (rest.drop (consumed - 1))
    | none => findServoFuel fuel rest

/-- `re.findall(r'Servo ([AB]) \((?:\d+)\): (\d+)µs', s)`. -/
def findServo (s : List Char) : List (Char × List Char) :=
  findServoFuel s.length s

/-- `pulses[servo] = int(pulse)` over the findall matches builds a dict, so
the surviving entry for a letter is the last match with that letter. -/
def lastPulse (ms : List (Char × List Char)) (l : Char) : Option Nat :=
  ((ms.filter (fun p => p.1 == l)).getLast?).map (fun p => digitsToNat p.2)

/-- A recognized character-completion report: the character token, the
(zero-filled) pattern if the pattern regex matched, and the per-servo pulse
widths if reported. -/
structure ParsedEvent where
  ch : List Char
  pattern : Option (List Char)
  pulseA : Option Nat
  pulseB : Option Nat
deriving DecidableEq, Repr

/-- The parse fragment of `process_serial_message` (lines 312–351): a line is
processed iff it contains `"Character:"`, splitting on `"->"` yields exactly
two parts, and the first part has a `":"` (otherwise the `IndexError` of
`parts[0].split(":")[1]` is caught and the line is dropped).  The character
token is stripped; the right-hand part is stripped into `pattern_info`; the
pattern and servo regexes are only run when `"Pattern:"` occurs in it. -/
def parseMessage (msg : List Char) : Option ParsedEvent :=
  if containsSubstr msg characterTag then
    match splitArrow msg with
    | [p0, p1] =>
      match (splitColon p0)[1]? with
      | none => none
      | some tok =>
        some { ch := pyStrip tok
               pattern :=
                 if containsSubstr (pyStrip p1) patternTag then
                   (searchPattern (pyStrip p1)).map zfill6
                 else none
               pulseA :=
                 if containsSubstr (pyStrip p1) patternTag then
                   lastPulse (findServo (pyStrip p1)) 'A'
                 else none
               pulseB :=
                 if containsSubstr (pyStrip p1) patternTag then
                   lastPulse (findServo (pyStrip p1)) 'B'
                 else none }
    | _ => none
  else none

/-! ## Group pipeline controller (`controller_gui.py`) -/

/-- The session state mutated by `_send_text` / `process_serial_message`:
`groups = none` models the `current_text_groups` attribute being unset. -/
structure CtrlState where
  groups : Option (List (List Char))
  groupIndex : Nat
deriving DecidableEq, Repr

/-- Externally visible effects of processing one telemetry line: display-slot
updates (letter, pattern, servo angles) and the scheduled next-group send
`root.after(char_delay, send_text(next_group, ...))` as (delay, group text). -/
structure Effects where
  letterUpdate : Option (Nat × List Char)
  patternUpdate : Option (Nat × List Char)
  angleUpdate : Option (Nat × ℚ × ℚ)
  send : Option (Nat × List Char)
deriving DecidableEq, Repr

/-- No effect (every early exit of `process_serial_message`). -/
def noEffects : Effects := ⟨none, none, none, none⟩

/-- `process_serial_message` (lines 307–373): parse the line; with a session
present (`hasattr` and truthiness checks) locate the character in the current
group by `str.index` (first occurrence, `ValueError` caught → drop); update
the display slot (an out-of-range slot raises `IndexError`, caught → drop);
if the match is at the group's final position, advance the group index and —
when a next group exists — schedule its send after `char_delay` ms.  Inputs:
`cd` = `char_delay`, `nd` = number of character displays. -/
def process_serial_message (cd nd : Nat) (s : CtrlState) (msg : List Char) :
    CtrlState × Effects :=
  match parseMessage msg with
  | none => (s, noEffects)
  | some ev =>
    match s.groups with
    | none => (s, noEffects)
    | some gs =>
      if gs.isEmpty then (s, noEffects)
      else
        match gs[s.groupIndex]? with
        | none => (s, noEffects)
        | some cg =>
          match substrIndex cg ev.ch with
          | none => (s, noEffects)
          | some pos =>
            if pos < nd then
              if pos = cg.length - 1 then
                match gs[s.groupIndex + 1]? with
                | some ng =>
                  (⟨some gs, s.groupIndex + 1⟩,
                   ⟨some (pos, ev.ch), ev.pattern.map (fun p => (pos, p)),
                    (match ev.pulseA, ev.pulseB with
                     | some pa, some pb =>
                       some (pos, pulse_to_angle pa, pulse_to_angle pb)
                     | _, _ => none),
                    some (cd, ng)⟩)
                | none =>
                  (⟨some gs, s.groupIndex + 1⟩,
                   ⟨some (pos, ev.ch), ev.pattern.map (fun p => (pos, p)),
                    (match ev.pulseA, ev.pulseB with
                     | some pa, some pb =>
                       some (pos, pulse_to_angle pa, pulse_to_angle pb)
                     | _, _ => none),
                    none⟩)
              else
                (s,
                 ⟨some (pos, ev.ch), ev.pattern.map (fun p => (pos, p)),
                  (match ev.pulseA, ev.pulseB with
                   | some pa, some pb =>
                     some (pos, pulse_to_angle pa, pulse_to_angle pb)
                   | _, _ => none),
                  none⟩)
            else (s, noEffects)

/-- `_send_text` (lines 246–287), session and transmission part: strip the
input (`ValueError` on blank), then either the single-character path
(`num_active_chars == 1`: send `text[0]`, session untouched) or the
multi-character path (chunk, reset the session to group 0, send group 0).
Returns the new state and the text handed to `SerialManager.send_text`.
A zero group size would raise `ValueError` in `range(0, len, 0)` (caught,
nothing happens); the spinbox restricts it to 1–7. -/
def sendTextOp (numActive : Nat) (text : List Char) (s : CtrlState) :
    CtrlState × Option (List Char) :=
  if (pyStrip text).isEmpty then (s, none)
  else if numActive = 1 then
    (s, some ((pyStrip text).take 1))
  else if numActive = 0 then (s, none)
  else
    match chunk numActive (pyStrip text) with
    | [] => (⟨some [], 0⟩, none)
    | g0 :: gs => (⟨some (g0 :: gs), 0⟩, some g0)

/-- Process a list of telemetry lines in order, collecting scheduled sends. -/
def runEvents (cd nd : Nat) : CtrlState → List (List Char) → CtrlState × List (Nat × List Char)
  | s, [] => (s, [])
  | s, m :: ms =>
    match process_serial_message cd nd s m with
    | (s1, eff) =>
      match runEvents cd nd s1 ms with
      | (s2, sends) => (s2, eff.send.toList ++ sends)

/-! ## Helper lemmas -/

theorem chunkFuel_nil (g fuel : Nat) : chunkFuel g fuel [] = [] := by
  cases fuel <;> rfl

theorem chunkFuel_eq_nil_iff (g : Nat) :
    ∀ fuel (l : List Char), l.length ≤ fuel → (chunkFuel g fuel l = [] ↔ l = []) := by
  intro fuel l hl
  constructor
  · intro h
    cases l with
    | nil => rfl
    | cons x xs =>
      cases fuel with
      | zero => simp at hl
      | succ n => simp [chunkFuel] at h
  · intro h; subst h; exact chunkFuel_nil g fuel

theorem chunkFuel_join (g : Nat) :
    ∀ fuel (l : List Char), l.length ≤ fuel → 1 ≤ g → (chunkFuel g fuel l).flatten = l := by
  intro fuel
  induction fuel with
  | zero =>
    intro l hl _
    cases l with
    | nil => rfl
    | cons x xs => simp at hl
  | succ n ih =>
    intro l hl hg
    cases l with
    | nil => rfl
    | cons x xs =>
      have hd : ((x :: xs).drop g).length ≤ n := by
        rw [List.length_drop]
        simp only [List.length_cons] at hl ⊢
        omega
      simp only [chunkFuel, List.flatten_cons]
      rw [ih _ hd hg, List.take_append_drop]

theorem chunkFuel_length (g : Nat) :
    ∀ fuel (l : List Char), l.length ≤ fuel → 1 ≤ g →
      (chunkFuel g fuel l).length = (l.length + g - 1) / g := by
  intro fuel
  induction fuel with
  | zero =>
    intro l hl hg
    cases l with
    | nil => simp [chunkFuel_nil, Nat.div_eq_of_lt (by omega : g - 1 < g)]
    | cons x xs => simp at hl
  | succ n ih =>
    intro l hl hg
    cases l with
    | nil => simp [chunkFuel_nil, Nat.div_eq_of_lt (by omega : g - 1 < g)]
    | cons x xs =>
      have hd : ((x :: xs).drop g).length ≤ n := by
        rw [List.length_drop]
        simp only [List.length_cons] at hl ⊢
        omega
      simp only [chunkFuel, List.length_cons]
      rw [ih _ hd hg, List.length_drop]
      simp only [List.length_cons]
      rcases le_or_lt (xs.length + 1) g with h | h
      · have e0 : xs.length + 1 - g = 0 := by omega
        have e1 : xs.length + 1 + g - 1 = xs.length + g := by omega
        rw [e0, e1]
        have e2 : xs.length + g = xs.length + g := rfl
        rw [Nat.add_div_right _ (by omega : 0 < g)]
        rw [Nat.div_eq_of_lt (by omega : 0 + g - 1 < g),
            Nat.div_eq_of_lt (by omega : xs.length < g)]
      · have e1 : xs.length + 1 - g + g - 1 = (xs.length - g) + g := by omega
        have e2 : xs.length + 1 + g - 1 = xs.length + g := by omega
        have e3 : xs.length = (xs.length - g) + g := by omega
        rw [e1, e2, Nat.add_div_right _ (by omega : 0 < g)]
        conv_rhs => rw [e3]
        rw [Nat.add_div_right _ (by omega : 0 < g),
            Nat.add_div_right _ (by omega : 0 < g)]

theorem chunkFuel_dropLast (g : Nat) :
    ∀ fuel (l : List Char), l.length ≤ fuel → 1 ≤ g →
      ∀ c ∈ (chunkFuel g fuel l).dropLast, c.length = g := by
  intro fuel
  induction fuel with
  | zero =>
    intro l hl _ c hc
    cases l with
    | nil => simp [chunkFuel_nil] at hc
    | cons x xs => simp at hl
  | succ n ih =>
    intro l hl hg c hc
    cases l with
    | nil => simp [chunkFuel_nil] at hc
    | cons x xs =>
      have hd : ((x :: xs).drop g).length ≤ n := by
        rw [List.length_drop]
        simp only [List.length_cons] at hl ⊢
        omega
      simp only [chunkFuel] at hc
      cases hr : chunkFuel g n ((x :: xs).drop g) with
      | nil => rw [hr] at hc; simp [List.dropLast] at hc
      | cons b t =>
        rw [hr] at hc
        simp only [List.dropLast, List.mem_cons] at hc
        rcases hc with hc | hc
        · subst hc
          have hne : (x :: xs).drop g ≠ [] := by
            intro h0
            rw [h0, chunkFuel_nil] at hr
            exact List.noConfusion hr
          have hgl : g < (x :: xs).length := by
            have := List.length_pos.mpr hne
            rw [List.length_drop] at this
            omega
          rw [List.length_take]
          omega
        · have := ih _ hd hg c
          rw [hr] at this
          exact this hc

theorem chunkFuel_getLast (g : Nat) :
    ∀ fuel (l : List Char), l.length ≤ fuel → 1 ≤ g → l ≠ [] →
      ∃ lastGroup, (chunkFuel g fuel l).getLast? = some lastGroup ∧
        1 ≤ lastGroup.length ∧ lastGroup.length ≤ g := by
  intro fuel
  induction fuel with
  | zero =>
    intro l hl _ hne
    cases l with
    | nil => exact absurd rfl hne
    | cons x xs => simp at hl
  | succ n ih =>
    intro l hl hg hne
    cases l with
    | nil => exact absurd rfl hne
    | cons x xs =>
      have hd : ((x :: xs).drop g).length ≤ n := by
        rw [List.length_drop]
        simp only [List.length_cons] at hl ⊢
        omega
      simp only [chunkFuel]
      cases hr : chunkFuel g n ((x :: xs).drop g) with
      | nil =>
        have hdrop : (x :: xs).drop g = [] :=
          (chunkFuel_eq_nil_iff g n _ hd).mp hr
        have hlen : (x :: xs).length ≤ g := by
          have := List.length_drop g (x :: xs)
          rw [hdrop] at this
          simp only [List.length_nil] at this
          omega
        refine ⟨(x :: xs).take g, rfl, ?_, ?_⟩
        · rw [List.length_take]
          simp only [List.length_cons]
          omega
        · rw [List.length_take]
          omega
      | cons b t =>
        have hne2 : (x :: xs).drop g ≠ [] := by
          intro h0
          rw [h0, chunkFuel_nil] at hr
          exact List.noConfusion hr
        obtain ⟨lastGroup, h1, h2, h3⟩ := ih _ hd hg hne2
        rw [hr] at h1
        exact ⟨lastGroup, by rw [List.getLast?_cons_cons]; exact h1, h2, h3⟩

theorem lookup_bits {l : List (Char × List Char)} {c : Char} {v : List Char}
    (h : l.lookup c = some v) : v ∈ l.map Prod.snd := by
  induction l with
  | nil => simp [List.lookup] at h
  | cons kv t ih =>
    rw [List.lookup] at h
    rcases hb : (c == kv.1) with _ | _
    · rw [hb] at h
      exact List.mem_cons_of_mem _ (ih h)
    · rw [hb] at h
      simp only [Option.some.injEq] at h
      subst h
      exact List.mem_cons_self _ _

theorem roundTo1_mono {x y : ℚ} (h : x ≤ y) : roundTo1 x ≤ roundTo1 y := by
  unfold roundTo1
  have h10 : round (x * 10) ≤ round (y * 10) := by
    rw [round_eq, round_eq]
    exact Int.floor_le_floor (by linarith)
  have : ((round (x * 10) : ℤ) : ℚ) ≤ ((round (y * 10) : ℤ) : ℚ) := by
    exact_mod_cast h10
  linarith

theorem prefix_head {c : Char} {l : List Char}
    (h : List.isPrefixOf [c] l = true) : ∃ t, l = c :: t := by
  cases l with
  | nil => simp [List.isPrefixOf] at h
  | cons x xs =>
    simp [List.isPrefixOf] at h
    exact ⟨xs, by rw [h]⟩

theorem drop_pred_getLast (l : List Char) :
    l.drop (l.length - 1) = l.getLast?.toList := by
  induction l with
  | nil => rfl
  | cons x xs ih =>
    cases xs with
    | nil => rfl
    | cons y ys =>
      have h1 : (x :: y :: ys).length - 1 = ((y :: ys).length - 1) + 1 := by
        simp
      rw [h1, List.getLast?_cons_cons, ← ih, List.drop_succ_cons]

theorem substrIndex_found {s pat : List Char} {i : Nat}
    (h : substrIndex s pat = some i) :
    pat.isPrefixOf (s.drop i) = true := by
  unfold substrIndex at h
  exact @List.find?_some _ (fun j => pat.isPrefixOf (s.drop j)) i _ h

theorem substrIndex_none_of_not_mem {s : List Char} {c : Char} (h : c ∉ s) :
    substrIndex s [c] = none := by
  unfold substrIndex
  rw [List.find?_eq_none]
  intro i _ hpre
  obtain ⟨t, ht⟩ := prefix_head hpre
  have hc : c ∈ s.drop i := by rw [ht]; exact List.mem_cons_self _ _
  exact h (List.drop_subset _ _ hc)

theorem getLast?_of_match {cg : List Char} {c : Char}
    (h : substrIndex cg [c] = some (cg.length - 1)) :
    cg.getLast? = some c := by
  have hp := substrIndex_found h
  rw [drop_pred_getLast] at hp
  cases hg : cg.getLast? with
  | none => rw [hg] at hp; simp [List.isPrefixOf] at hp
  | some a =>
    rw [hg] at hp
    obtain ⟨t, ht⟩ := prefix_head hp
    injection ht with h1 _
    rw [h1]

theorem run_stuck (cd nd : Nat) (gs : List (List Char)) (i : Nat)
    (hge : gs.length ≤ i) :
    ∀ ms, runEvents cd nd ⟨some gs, i⟩ ms = (⟨some gs, i⟩, []) := by
  intro ms
  induction ms with
  | nil => rfl
  | cons m ms ih =>
    have hstep :
        process_serial_message cd nd ⟨some gs, i⟩ m = (⟨some gs, i⟩, noEffects) := by
      cases hp : parseMessage m with
      | none => simp [process_serial_message, hp]
      | some ev =>
        cases he : gs.isEmpty with
        | true => simp [process_serial_message, hp, he]
        | false =>
          have hnone : gs[i]? = none := List.getElem?_eq_none hge
          simp [process_serial_message, hp, he, hnone]
    simp [runEvents, hstep, ih, noEffects]

theorem run_no_session (cd nd : Nat) (s : CtrlState) (hs : s.groups = none) :
    ∀ ms, runEvents cd nd s ms = (s, []) := by
  intro ms
  induction ms with
  | nil => rfl
  | cons m ms ih =>
    have hstep : process_serial_message cd nd s m = (s, noEffects) := by
      cases hp : parseMessage m with
      | none => simp [process_serial_message, hp]
      | some ev => simp [process_serial_message, hp, hs]
    simp [runEvents, hstep, ih, noEffects]

/-! ## Claim theorems -/

/-- C1: for every well-formed 6-character binary pattern `p`,
`pattern_to_angles p` is the pair `(T[v >>> 3 &&& 7], T[v &&& 7])` where `v`
is `p` read as an unsigned binary integer and `T = PATTERN_TO_ANGLE =
[66, 84, 37, 128, 51, 26, 22, 0]`; each returned angle is one of those eight
table values, never interpolated and never outside `[0, 180]`. -/
theorem c1_pattern_to_angles (p : List Char) (h : validate_pattern p = true) :
    pattern_to_angles p =
      (PATTERN_TO_ANGLE.getD ((parseBin p >>> 3) &&& 7) 0,
       PATTERN_TO_ANGLE.getD (parseBin p &&& 7) 0) ∧
    (pattern_to_angles p).1 ∈ PATTERN_TO_ANGLE ∧
    (pattern_to_angles p).2 ∈ PATTERN_TO_ANGLE ∧
    (pattern_to_angles p).1 ≤ 180 ∧ (pattern_to_angles p).2 ≤ 180 := by
  have key : ∀ i, i < 8 →
      PATTERN_TO_ANGLE.getD i 0 ∈ PATTERN_TO_ANGLE ∧
      PATTERN_TO_ANGLE.getD i 0 ≤ 180 := by decide
  have hA := key ((parseBin p >>> 3) &&& 7)
    (Nat.lt_succ_of_le Nat.and_le_right)
  have hB := key (parseBin p &&& 7) (Nat.lt_succ_of_le Nat.and_le_right)
  exact ⟨rfl, hA.1, hB.1, hA.2, hB.2⟩

/-- C1 witness: the pattern for `'a'` is well-formed and maps to table angles. -/
theorem c1_witness :
    validate_pattern "100000".toList = true ∧
    (pattern_to_angles "100000".toList =
      (PATTERN_TO_ANGLE.getD ((parseBin "100000".toList >>> 3) &&& 7) 0,
       PATTERN_TO_ANGLE.getD (parseBin "100000".toList &&& 7) 0) ∧
     (pattern_to_angles "100000".toList).1 ∈ PATTERN_TO_ANGLE ∧
     (pattern_to_angles "100000".toList).2 ∈ PATTERN_TO_ANGLE ∧
     (pattern_to_angles "100000".toList).1 ≤ 180 ∧
     (pattern_to_angles "100000".toList).2 ≤ 180) :=
  ⟨by decide, c1_pattern_to_angles "100000".toList (by decide)⟩

/-- C3: for non-empty text and group size 1–7, chunking yields exactly
`⌈L/g⌉` groups, every group except possibly the last has length `g`, the last
has length in `1..g`, and concatenating the groups reproduces the text. -/
theorem c3_chunking (t : List Char) (g : Nat) (ht : t ≠ []) (hg1 : 1 ≤ g)
    (hg7 : g ≤ 7) :
    (chunk g t).length = (t.length + g - 1) / g ∧
    (∀ c ∈ (chunk g t).dropLast, c.length = g) ∧
    (∃ lastGroup, (chunk g t).getLast? = some lastGroup ∧
      1 ≤ lastGroup.length ∧ lastGroup.length ≤ g) ∧
    (chunk g t).flatten = t := by
  refine ⟨?_, ?_, ?_, ?_⟩
  · exact chunkFuel_length g t.length t le_rfl hg1
  · exact chunkFuel_dropLast g t.length t le_rfl hg1
  · exact chunkFuel_getLast g t.length t le_rfl hg1 ht
  · exact chunkFuel_join g t.length t le_rfl hg1

/-- C3 witness: chunking `"abcde"` with group size 2. -/
theorem c3_witness :
    (chunk 2 "abcde".toList).length = ("abcde".toList.length + 2 - 1) / 2 ∧
    (∀ c ∈ (chunk 2 "abcde".toList).dropLast, c.length = 2) ∧
    (∃ lastGroup, (chunk 2 "abcde".toList).getLast? = some lastGroup ∧
      1 ≤ lastGroup.length ∧ lastGroup.length ≤ 2) ∧
    (chunk 2 "abcde".toList).flatten = "abcde".toList :=
  c3_chunking "abcde".toList 2 (by decide) (by decide) (by decide)

/-- C6: the pattern lookup is total and deterministic: it folds the character
to lowercase, then returns the letter-table entry, else the digit-table entry,
else the punctuation-table entry, else the space pattern `"000000"`; its
result is always exactly 6 characters, each `'0'` or `'1'`. -/
theorem c6_get_pattern_for_char (c : Char) :
    (get_pattern_for_char c).length = 6 ∧
    (∀ b ∈ get_pattern_for_char c, b = '0' ∨ b = '1') ∧
    (∀ v, BRAILLE_PATTERNS.lookup c.toLower = some v →
      get_pattern_for_char c = v) ∧
    (BRAILLE_PATTERNS.lookup c.toLower = none →
      ∀ v, BRAILLE_NUMBERS.lookup c.toLower = some v →
        get_pattern_for_char c = v) ∧
    (BRAILLE_PATTERNS.lookup c.toLower = none →
      BRAILLE_NUMBERS.lookup c.toLower = none →
        ∀ v, BRAILLE_SPECIAL.lookup c.toLower = some v →
          get_pattern_for_char c = v) ∧
    (BRAILLE_PATTERNS.lookup c.toLower = none →
      BRAILLE_NUMBERS.lookup c.toLower = none →
        BRAILLE_SPECIAL.lookup c.toLower = none →
          get_pattern_for_char c = "000000".toList) := by
  have hL : ∀ v ∈ BRAILLE_PATTERNS.map Prod.snd,
      v.length = 6 ∧ ∀ b ∈ v, b = '0' ∨ b = '1' := by decide
  have hN : ∀ v ∈ BRAILLE_NUMBERS.map Prod.snd,
      v.length = 6 ∧ ∀ b ∈ v, b = '0' ∨ b = '1' := by decide
  have hS : ∀ v ∈ BRAILLE_SPECIAL.map Prod.snd,
      v.length = 6 ∧ ∀ b ∈ v, b = '0' ∨ b = '1' := by decide
  have hwf : (get_pattern_for_char c).length = 6 ∧
      ∀ b ∈ get_pattern_for_char c, b = '0' ∨ b = '1' := by
    unfold get_pattern_for_char
    cases h1 : BRAILLE_PATTERNS.lookup c.toLower with
    | some v => exact hL v (lookup_bits h1)
    | none =>
      cases h2 : BRAILLE_NUMBERS.lookup c.toLower with
      | some v => exact hN v (lookup_bits h2)
      | none =>
        cases h3 : BRAILLE_SPECIAL.lookup c.toLower with
        | some v => exact hS v (lookup_bits h3)
        | none => exact ⟨by decide, by decide⟩
  refine ⟨hwf.1, hwf.2, ?_, ?_, ?_, ?_⟩
  · intro v h1
    unfold get_pattern_for_char
    rw [h1]
  · intro h1 v h2
    unfold get_pattern_for_char
    rw [h1, h2]
  · intro h1 h2 v h3
    unfold get_pattern_for_char
    rw [h1, h2, h3]
  · intro h1 h2 h3
    unfold get_pattern_for_char
    rw [h1, h2, h3]

/-- C6 witness: `'A'` folds to `'a'` and returns the letter-table entry
`"100000"`, which is 6 characters of `'0'`/`'1'`. -/
theorem c6_witness :
    (get_pattern_for_char 'A').length = 6 ∧
    (∀ b ∈ get_pattern_for_char 'A', b = '0' ∨ b = '1') ∧
    get_pattern_for_char 'A' = "100000".toList :=
  ⟨(c6_get_pattern_for_char 'A').1, (c6_get_pattern_for_char 'A').2.1,
   (c6_get_pattern_for_char 'A').2.2.1 "100000".toList (by decide)⟩

/-- C7: the pulse-to-angle conversion clamps to `[500, 2500]` and then
applies the linear map `(p - 500) * 180 / 2000` rounded to one decimal place;
it is monotonically non-decreasing, equals `0` at `p = 500` and below, equals
`180` at `p = 2500` and above, and out-of-range inputs are clamped, never
rejected. -/
theorem c7_pulse_to_angle :
    (∀ p q : ℤ, p ≤ q → pulse_to_angle p ≤ pulse_to_angle q) ∧
    (∀ p : ℤ, p ≤ 500 → pulse_to_angle p = 0) ∧
    (∀ p : ℤ, 2500 ≤ p → pulse_to_angle p = 180) ∧
    (∀ p : ℤ, pulse_to_angle p =
      roundTo1 ((((max 500 (min p 2500) : ℤ) : ℚ) - 500) * 180 / 2000)) := by
  refine ⟨?_, ?_, ?_, ?_⟩
  · intro p q hpq
    unfold pulse_to_angle
    apply roundTo1_mono
    have hb : (max 500 (min p 2500) : ℤ) ≤ max 500 (min q 2500) :=
      max_le_max le_rfl (min_le_min hpq le_rfl)
    have hbq : ((max 500 (min p 2500) : ℤ) : ℚ) ≤ ((max 500 (min q 2500) : ℤ) : ℚ) := by
      exact_mod_cast hb
    have h1 : ((max 500 (min p 2500) : ℤ) : ℚ) - 500 ≤
        ((max 500 (min q 2500) : ℤ) : ℚ) - 500 := by linarith
    have h2 := mul_le_mul_of_nonneg_right h1 (by norm_num : (0:ℚ) ≤ 180 - 0)
    exact div_le_div_of_nonneg_right h2 (by norm_num)
  · intro p hp
    unfold pulse_to_angle
    have h1 : min p 2500 = p := min_eq_left (by omega)
    have h2 : max 500 p = (500 : ℤ) := max_eq_left hp
    rw [h1, h2]
    norm_num [roundTo1]
  · intro p hp
    unfold pulse_to_angle
    have h1 : min p 2500 = (2500 : ℤ) := min_eq_right hp
    rw [h1]
    have h2 : max 500 (2500 : ℤ) = 2500 := by decide
    rw [h2]
    have h3 : (((2500 : ℤ) : ℚ) - 500) * (180 - 0) / (2500 - 500) = 180 := by
      norm_num
    rw [h3]
    unfold roundTo1
    have h4 : ((180 : ℚ) * 10) = ((1800 : ℤ) : ℚ) := by norm_num
    rw [h4, round_intCast]
    norm_num
  · intro p
    unfold pulse_to_angle
    norm_num

/-- C7 witness: concrete monotonicity, clamp-low and clamp-high instances. -/
theorem c7_witness :
    pulse_to_angle 300 ≤ pulse_to_angle 1700 ∧
    pulse_to_angle 300 = 0 ∧ pulse_to_angle 2600 = 180 :=
  ⟨c7_pulse_to_angle.1 300 1700 (by decide),
   c7_pulse_to_angle.2.1 300 (by decide),
   c7_pulse_to_angle.2.2.1 2600 (by decide)⟩

/-- C8: `send_text` fails with the not-connected `ConnectionError` for every
call made while no connection is open (and then performs no port operation,
in particular no write), and on the success path it clears the input and
output buffers before writing the single encoded command `TEXT:<text>\n` and
flushing, in that order. -/
theorem c8_send_text :
    (∀ t, send_text false t = .error .notConnected) ∧
    (∀ t ops, send_text false t ≠ .ok ops) ∧
    (∀ t, (pyStrip t).isEmpty = false →
      send_text true t =
        .ok [.resetInputBuffer, .resetOutputBuffer,
             .write (textCommand t), .flush]) := by
  refine ⟨fun t => rfl, fun t ops h => by simp [send_text] at h, ?_⟩
  intro t h
  simp [send_text, h]

/-- C8 witness: sending `"abc"` while disconnected errors; while connected it
clears buffers, writes `TEXT:abc\n` and flushes. -/
theorem c8_witness :
    send_text false "abc".toList = .error .notConnected ∧
    (pyStrip "abc".toList).isEmpty = false ∧
    send_text true "abc".toList =
      .ok [.resetInputBuffer, .resetOutputBuffer,
           .write (textCommand "abc".toList), .flush] :=
  ⟨c8_send_text.1 "abc".toList, by decide,
   c8_send_text.2.2 "abc".toList (by decide)⟩

/-- The exact telemetry line of the parser test property. -/
def c4Line : List Char :=
  "Character: a -> Pattern: 100000 Servo A (0): 900µs Servo B (0): 1900µs".toList

/-- C4: parsing the exact line
`"Character: a -> Pattern: 100000 Servo A (0): 900µs Servo B (0): 1900µs"`
yields a character-rendered event with character `'a'`, pattern `"100000"`,
pulse A `900` and pulse B `1900` (and with a session in place both servo
angles are derived from those pulses); a line without the substring
`"Character:"` yields no event and is ignored by the pipeline. -/
theorem c4_parse_exact_line :
    parseMessage c4Line =
      some ⟨['a'], some "100000".toList, some 900, some 1900⟩ ∧
    (process_serial_message 0 1 ⟨some [['a']], 0⟩ c4Line).2.angleUpdate =
      some (0, pulse_to_angle 900, pulse_to_angle 1900) ∧
    (∀ msg, containsSubstr msg characterTag = false →
      parseMessage msg = none ∧
      ∀ cd nd s, process_serial_message cd nd s msg = (s, noEffects)) := by
  refine ⟨by decide, rfl, ?_⟩
  intro msg h
  have hp : parseMessage msg = none := by simp [parseMessage, h]
  exact ⟨hp, fun cd nd s => by simp [process_serial_message, hp]⟩

/-- C4 witness: a plain log line is not recognized and causes no action. -/
theorem c4_witness :
    parseMessage "Booting device v1.2".toList = none ∧
    process_serial_message 7 2 ⟨some [['a']], 0⟩ "Booting device v1.2".toList =
      (⟨some [['a']], 0⟩, noEffects) :=
  ⟨(c4_parse_exact_line.2.2 "Booting device v1.2".toList (by decide)).1,
   (c4_parse_exact_line.2.2 "Booting device v1.2".toList (by decide)).2 7 2 _⟩

/-- C5 counterexample: `"Character: a -> b -> c"` contains both the substring
`"Character:"` and the separator `"->"`, yet it is not treated as a
character-completion report (splitting on `"->"` yields three parts, so
`process_serial_message` does nothing with it), refuting the claimed
"iff". -/
theorem c5_counterexample :
    containsSubstr "Character: a -> b -> c".toList characterTag = true ∧
    containsSubstr "Character: a -> b -> c".toList "->".toList = true ∧
    parseMessage "Character: a -> b -> c".toList = none ∧
    process_serial_message 5 3 ⟨some [['a']], 0⟩ "Character: a -> b -> c".toList =
      (⟨some [['a']], 0⟩, noEffects) := by
  exact ⟨by decide, by decide, by decide, by decide⟩

/-- C5 (amended): a line is treated as a character-completion report iff it
contains the substring `"Character:"`, splitting it on `"->"` yields exactly
two parts, and the part before the separator contains a colon (so the
character token `parts[0].split(":")[1]` can be extracted); every line
failing this recognition yields no event. -/
theorem c5_recognition (msg : List Char) :
    (parseMessage msg).isSome = true ↔
      (containsSubstr msg characterTag = true ∧
       (splitArrow msg).length = 2 ∧
       2 ≤ (splitColon (splitArrow msg).headI).length) := by
  cases hc : containsSubstr msg characterTag with
  | false => simp [parseMessage, hc]
  | true =>
    rcases hs : splitArrow msg with _ | ⟨p0, _ | ⟨p1, _ | ⟨p2, rest⟩⟩⟩
    · simp [parseMessage, hc, hs]
    · simp [parseMessage, hc, hs]
    · cases hg : (splitColon p0)[1]? with
      | none =>
        have hlen : (splitColon p0).length ≤ 1 := by
          by_contra hcon
          rw [List.getElem?_eq_getElem (by omega)] at hg
          exact Option.noConfusion hg
        simp [parseMessage, hc, hs, hg]
        omega
      | some tok =>
        have hlen : 1 < (splitColon p0).length := by
          by_contra hcon
          rw [List.getElem?_eq_none (by omega)] at hg
          exact Option.noConfusion hg
        simp [parseMessage, hc, hs, hg]
        omega
    · simp [parseMessage, hc, hs]

/-- C5 witness: a well-shaped report line satisfies the recognition
conditions and is parsed. -/
theorem c5_witness :
    (parseMessage "Character: b -> ok".toList).isSome = true :=
  (c5_recognition "Character: b -> ok".toList).mpr (by decide)

/-- One synthetic character-completion line per character, used to drive the
pipeline in the end-to-end properties. -/
def evLine (c : Char) : List Char :=
  "Character: ".toList ++ [c] ++ " -> ok".toList

/-- C2: while group `i` is in flight, the command for group `i+1` is produced
only by the transition that processes a character-completion event matching
at the last position of group `i` (for a single-character token, the group's
last character), and that send carries delay `char_delay`; concretely,
submitting `"abcdef"` with group size 3 sends `abc` first, events for
`'a'`/`'b'` send nothing, the event for `'c'` schedules `def` after
`char_delay`, and once the final group completes no event can ever produce a
further send. -/
theorem c2_group_pipeline :
    (∀ cd nd (s : CtrlState) msg d gtext,
      (process_serial_message cd nd s msg).2.send = some (d, gtext) →
        d = cd ∧
        ∃ ev gs cg, parseMessage msg = some ev ∧ s.groups = some gs ∧
          gs[s.groupIndex]? = some cg ∧
          substrIndex cg ev.ch = some (cg.length - 1) ∧
          (∀ c : Char, ev.ch = [c] → cg.getLast? = some c) ∧
          gs[s.groupIndex + 1]? = some gtext ∧
          (process_serial_message cd nd s msg).1 = ⟨some gs, s.groupIndex + 1⟩) ∧
    (sendTextOp 3 "abcdef".toList ⟨none, 0⟩ =
      (⟨some ["abc".toList, "def".toList], 0⟩, some "abc".toList)) ∧
    (∀ cd, runEvents cd 3 ⟨some ["abc".toList, "def".toList], 0⟩
        [evLine 'a', evLine 'b'] =
      (⟨some ["abc".toList, "def".toList], 0⟩, [])) ∧
    (∀ cd, process_serial_message cd 3 ⟨some ["abc".toList, "def".toList], 0⟩
        (evLine 'c') =
      (⟨some ["abc".toList, "def".toList], 1⟩,
       ⟨some (2, ['c']), none, none, some (cd, "def".toList)⟩)) ∧
    (∀ cd, runEvents cd 3 ⟨some ["abc".toList, "def".toList], 0⟩
        [evLine 'a', evLine 'b', evLine 'c', evLine 'd', evLine 'e', evLine 'f'] =
      (⟨some ["abc".toList, "def".toList], 2⟩, [(cd, "def".toList)])) ∧
    (∀ cd nd (gs : List (List Char)) i ms, gs.length ≤ i →
      runEvents cd nd ⟨some gs, i⟩ ms = (⟨some gs, i⟩, [])) := by
  refine ⟨?_, by decide, fun cd => rfl, fun cd => rfl, fun cd => rfl,
          fun cd nd gs i ms hge => run_stuck cd nd gs i hge ms⟩
  intro cd nd s msg d gtext h
  cases hp : parseMessage msg with
  | none => simp [process_serial_message, hp, noEffects] at h
  | some ev =>
    cases hgs : s.groups with
    | none => simp [process_serial_message, hp, hgs, noEffects] at h
    | some gs =>
      cases he : gs.isEmpty with
      | true => simp [process_serial_message, hp, hgs, he, noEffects] at h
      | false =>
        cases hcg : gs[s.groupIndex]? with
        | none => simp [process_serial_message, hp, hgs, he, hcg, noEffects] at h
        | some cg =>
          cases hpos : substrIndex cg ev.ch with
          | none =>
            simp [process_serial_message, hp, hgs, he, hcg, hpos, noEffects] at h
          | some pos =>
            by_cases hnd : pos < nd
            · by_cases hlast : pos = cg.length - 1
              · subst hlast
                cases hng : gs[s.groupIndex + 1]? with
                | none =>
                  simp [process_serial_message, hp, hgs, he, hcg, hpos,
                        hnd, hng, noEffects] at h
                | some ng =>
                  have heq : process_serial_message cd nd s msg =
                      (⟨some gs, s.groupIndex + 1⟩,
                       ⟨some (cg.length - 1, ev.ch),
                        ev.pattern.map (fun p => (cg.length - 1, p)),
                        (match ev.pulseA, ev.pulseB with
                         | some pa, some pb =>
                           some (cg.length - 1, pulse_to_angle pa, pulse_to_angle pb)
                         | _, _ => none),
                        some (cd, ng)⟩) := by
                    simp [process_serial_message, hp, hgs, he, hcg, hpos,
                          hnd, hng]
                  rw [heq] at h
                  simp only [Option.some.injEq, Prod.mk.injEq] at h
                  refine ⟨h.1.symm, ev, gs, cg, rfl, rfl, hcg, hpos, ?_, ?_, ?_⟩
                  · intro c hchar
                    apply getLast?_of_match
                    rw [← hchar]
                    exact hpos
                  · rw [hng, h.2]
                  · rw [heq]
              · simp [process_serial_message, hp, hgs, he, hcg, hpos,
                      hnd, hlast, noEffects] at h
            · simp [process_serial_message, hp, hgs, he, hcg, hpos,
                    hnd, noEffects] at h

/-- C2 witness: the general send-origin property applied to the concrete
event for `'c'` with `char_delay = 250`. -/
theorem c2_witness :
    250 = 250 ∧
    ∃ ev gs cg,
      parseMessage (evLine 'c') = some ev ∧
      (CtrlState.mk (some ["abc".toList, "def".toList]) 0).groups = some gs ∧
      gs[(CtrlState.mk (some ["abc".toList, "def".toList]) 0).groupIndex]? = some cg ∧
      substrIndex cg ev.ch = some (cg.length - 1) ∧
      (∀ c : Char, ev.ch = [c] → cg.getLast? = some c) ∧
      gs[(CtrlState.mk (some ["abc".toList, "def".toList]) 0).groupIndex + 1]? =
        some "def".toList ∧
      (process_serial_message 250 3 ⟨some ["abc".toList, "def".toList], 0⟩
        (evLine 'c')).1 =
        ⟨some gs,
         (CtrlState.mk (some ["abc".toList, "def".toList]) 0).groupIndex + 1⟩ :=
  c2_group_pipeline.1 250 3 ⟨some ["abc".toList, "def".toList], 0⟩
    (evLine 'c') 250 "def".toList (by decide)

/-- C9: a character-rendered event whose character does not occur anywhere in
the current in-flight group leaves the session state unchanged — the group
index is not advanced, no display slot is updated, and no send is scheduled;
the event is dropped. -/
theorem c9_unmatched_event (cd nd : Nat) (s : CtrlState) (msg : List Char)
    (gs : List (List Char)) (cg : List Char) (ev : ParsedEvent) (c : Char)
    (hgs : s.groups = some gs) (hcg : gs[s.groupIndex]? = some cg)
    (hp : parseMessage msg = some ev) (hch : ev.ch = [c]) (hc : c ∉ cg) :
    process_serial_message cd nd s msg = (s, noEffects) := by
  have hsi : substrIndex cg ev.ch = none := by
    rw [hch]; exact substrIndex_none_of_not_mem hc
  cases he : gs.isEmpty with
  | true => simp [process_serial_message, hp, hgs, he]
  | false => simp [process_serial_message, hp, hgs, he, hcg, hsi]

/-- C9 witness: an event for `'z'` while group `"abc"` is in flight is a
no-op. -/
theorem c9_witness :
    process_serial_message 5 3 ⟨some ["abc".toList], 0⟩ (evLine 'z') =
      (⟨some ["abc".toList], 0⟩, noEffects) :=
  c9_unmatched_event 5 3 ⟨some ["abc".toList], 0⟩ (evLine 'z')
    ["abc".toList] "abc".toList ⟨['z'], none, none, none⟩ 'z'
    rfl rfl (by decide) rfl (by decide)

/-- C10: with group size 1 and text of length ≥ 2, the submit operation sends
exactly one command, containing only the first character of the (stripped)
text, and does not create or update the group session; consequently (when no
stale session exists) no later telemetry event can make this submission
transmit the remaining characters. -/
theorem c10_single_char_mode (text : List Char) (s : CtrlState)
    (h2 : 2 ≤ (pyStrip text).length) :
    sendTextOp 1 text s = (s, some ((pyStrip text).take 1)) ∧
    ((pyStrip text).take 1).length = 1 ∧
    (s.groups = none → ∀ cd nd ms,
      runEvents cd nd (sendTextOp 1 text s).1 ms = (s, [])) := by
  have hne : (pyStrip text).isEmpty = false := by
    cases hp : pyStrip text with
    | nil => rw [hp] at h2; simp at h2
    | cons x xs => rfl
  have h1 : sendTextOp 1 text s = (s, some ((pyStrip text).take 1)) := by
    simp [sendTextOp, hne]
  refine ⟨h1, ?_, ?_⟩
  · rw [List.length_take]
    omega
  · intro hs cd nd ms
    rw [h1]
    exact run_no_session cd nd s hs ms

/-- C10 witness: submitting `"ab"` with group size 1 sends only `'a'`, leaves
the session unset, and a later event transmits nothing. -/
theorem c10_witness :
    sendTextOp 1 "ab".toList ⟨none, 0⟩ =
      (⟨none, 0⟩, some ((pyStrip "ab".toList).take 1)) ∧
    ((pyStrip "ab".toList).take 1).length = 1 ∧
    runEvents 4 2 (sendTextOp 1 "ab".toList ⟨none, 0⟩).1 [evLine 'b'] =
      (⟨none, 0⟩, []) :=
  ⟨(c10_single_char_mode "ab".toList ⟨none, 0⟩ (by decide)).1,
   (c10_single_char_mode "ab".toList ⟨none, 0⟩ (by decide)).2.1,
   (c10_single_char_mode "ab".toList ⟨none, 0⟩ (by decide)).2.2 rfl 4 2 [evLine 'b']⟩

end Braille
